import Mathlib

/-!
Shallow embedding of `src/file_manager1.py` (class `FileMetadata` and class
`FileManager`): a per-user private file storage utility.

Modelling choices, each justified by the corresponding source construct:

* The filesystem is an association list from path (`String`) to `FSFile`.
  An `FSFile` carries its byte content, a `readable` flag (whether an
  open-for-read probe on that path succeeds: permissions, locks and
  transient I/O errors are folded into this one environment-controlled
  flag, which also models `os.access(path, os.R_OK)`), plus the
  `st_ctime` / `st_mtime` stat fields.  `st_size` is the content length.
* Python `datetime` values are modelled as natural-number timestamps;
  `datetime.isoformat` is modelled as the (lossless, injective) decimal
  text rendering of the timestamp and `datetime.fromisoformat` as the
  corresponding parse, which fails on non-digit text.  This captures the
  lossless text round-trip contract of the CPython pair while keeping the
  embedding executable.
* `json.dump` / `json.load` are modelled as the identity at the level of
  JSON values: a persisted metadata document is an association list from
  key to flat record dictionary (`RecordDict`), and a document that is
  absent, unparseable or not of that shape is `MetaFileState.absent` or
  `MetaFileState.corrupt`.
* Python exceptions are made visible in the result type `PyResult`:
  `PyResult.exn s` is a raised exception escaping the function with the
  (possibly mutated) state `s`; `PyResult.ok v s` is a normal return.
* The environment oracle `Env` controls the outcome of the platform calls
  the code makes: `aclOk` is whether `win32security.SetFileSecurity`
  succeeds, `saveOk` is whether writing the metadata file succeeds, and
  `now` is the creation time the filesystem assigns to a newly copied
  file (`shutil.copy2` preserves the source `st_mtime` but the
  destination gets a fresh `st_ctime`).
-/

/-- Environment oracle for platform calls (ACL application, metadata file
write, destination creation-time clock). -/
structure Env where
  aclOk : Bool
  saveOk : Bool
  now : Nat
deriving DecidableEq

/-- One file on disk: content bytes, whether an open-for-read succeeds, and
the creation / modification stat times. -/
structure FSFile where
  content : List Nat
  readable : Bool
  ctime : Nat
  mtime : Nat
deriving DecidableEq

/-- A JSON scalar as it appears in a metadata record dictionary. -/
inductive JValue where
  | jstr : String → JValue
  | jnum : Nat → JValue
  | jbool : Bool → JValue
deriving DecidableEq

/-- The dictionary produced by `FileMetadata.to_dict`: a flat JSON object. -/
abbrev RecordDict := List (String × JValue)

/-- The parse state of one on-disk `metadata.json`: absent, unparseable
(corrupt JSON or not an object of record dictionaries), or a document. -/
inductive MetaFileState where
  | absent
  | corrupt
  | doc (d : List (String × RecordDict))
deriving DecidableEq

/-- Mirror of the Python class `FileMetadata` (timestamps as naturals). -/
structure FileMetadata where
  filename : String
  path : String
  size : Nat
  created_at : Nat
  modified_at : Nat
  owner : String
  permissions : String
  is_encrypted : Bool
deriving DecidableEq

/-- The mutable fields of a `FileManager` instance together with the
modelled outside world (filesystem and persisted metadata documents,
keyed by the path of the `metadata.json` they live at). -/
structure ManagerState where
  fs : List (String × FSFile)
  metaDocs : List (String × MetaFileState)
  metadata : List (String × FileMetadata)
  current_user : Option String
  root_dir : String
  user_dir : String
  metadata_file : String
deriving DecidableEq

/-- Result of a Python method call: normal return with a value and the
resulting state, or a raised exception escaping with the (possibly
mutated) state. -/
inductive PyResult (α : Type) where
  | ok (value : α) (state : ManagerState)
  | exn (state : ManagerState)
deriving DecidableEq

/-- `os.path.join a b` (separator fixed, which is all the model needs). -/
def joinPath (a b : String) : String := a ++ "/" ++ b

/-- Split a character list on a separator (groups between separators). -/
def splitChars (sep : Char) : List Char → List (List Char)
  | [] => [[]]
  | c :: cs =>
    let r := splitChars sep cs
    if c = sep then [] :: r
    else
      match r with
      | [] => [[c]]
      | g :: gs => (c :: g) :: gs

/-- `os.path.basename`: the last path component. -/
def basename (p : String) : String :=
  String.mk ((splitChars (Char.ofNat 47) p.data).getLastD [])

/-- Lookup in an association list (Python `d[k]` / `k in d`). -/
def lookupAL {α : Type} : List (String × α) → String → Option α
  | [], _ => none
  | kv :: rest, k => if kv.1 = k then some kv.2 else lookupAL rest k

/-- Python `d[k] = v`: replace in place if the key is present, else append
(insertion order preserved, as for a Python dict). -/
def insertAL {α : Type} : List (String × α) → String → α → List (String × α)
  | [], k, v => [(k, v)]
  | kv :: rest, k, v => if kv.1 = k then (k, v) :: rest else kv :: insertAL rest k v

/-- Python `del d[k]` (removes every binding of the key). -/
def eraseAL {α : Type} : List (String × α) → String → List (String × α)
  | [], _ => []
  | kv :: rest, k => if kv.1 = k then eraseAL rest k else kv :: eraseAL rest k

/-- One decimal digit character to its value, as `fromisoformat` needs. -/
def charToDigit (c : Char) : Option Nat :=
  if 48 ≤ c.toNat ∧ c.toNat ≤ 57 then some (c.toNat - 48) else none

/-- Model of `datetime.isoformat`: the lossless decimal text rendering of
the timestamp (most significant digit first). -/
def isoformat (t : Nat) : String :=
  if t = 0 then "0"
  else String.mk ((Nat.digits 10 t).reverse.map fun d => Char.ofNat (48 + d))

/-- Digit-wise parse of a character list; fails on any non-digit. -/
def parseDigits : List Char → Option (List Nat)
  | [] => some []
  | c :: cs =>
    match charToDigit c, parseDigits cs with
    | some d, some ds => some (d :: ds)
    | _, _ => none

/-- Model of `datetime.fromisoformat`: parses the decimal rendering back,
raising (`none`) on empty or non-digit text. -/
def fromisoformat (s : String) : Option Nat :=
  if s.data.isEmpty then none
  else (parseDigits s.data).map fun ds => Nat.ofDigits 10 ds.reverse

theorem charToDigit_ofNat (d : Nat) (h : d < 10) :
    charToDigit (Char.ofNat (48 + d)) = some d := by
  interval_cases d <;> decide

theorem parseDigits_map_ofNat (l : List Nat) (h : ∀ d ∈ l, d < 10) :
    parseDigits (l.map fun d => Char.ofNat (48 + d)) = some l := by
  induction l with
  | nil => rfl
  | cons a l ih =>
    have ha : charToDigit (Char.ofNat (48 + a)) = some a :=
      charToDigit_ofNat a (h a (List.mem_cons_self a l))
    have hl := ih fun d hd => h d (List.mem_cons_of_mem a hd)
    simp [parseDigits, ha, hl]

/-- The timestamp text round trip: `fromisoformat` inverts `isoformat`. -/
theorem fromisoformat_isoformat (t : Nat) :
    fromisoformat (isoformat t) = some t := by
  by_cases h0 : t = 0
  · subst h0; decide
  · have hne : Nat.digits 10 t ≠ [] := Nat.digits_ne_nil_iff_ne_zero.mpr h0
    have hlt : ∀ d ∈ (Nat.digits 10 t).reverse, d < 10 := by
      intro d hd
      exact Nat.digits_lt_base (by norm_num) (List.mem_reverse.mp hd)
    have hmap := parseDigits_map_ofNat ((Nat.digits 10 t).reverse) hlt
    have hdata :
        (String.mk ((Nat.digits 10 t).reverse.map fun d => Char.ofNat (48 + d))).data
          = (Nat.digits 10 t).reverse.map fun d => Char.ofNat (48 + d) := rfl
    simp only [isoformat, if_neg h0, fromisoformat, hdata]
    rw [if_neg (by simpa using hne)]
    rw [hmap]
    simp [Nat.ofDigits_digits]

/-- `FileMetadata.to_dict` (source lines 24-34): the flat JSON dictionary,
timestamps rendered through `isoformat`. -/
def FileMetadata.to_dict (m : FileMetadata) : RecordDict :=
  [("filename", JValue.jstr m.filename),
   ("path", JValue.jstr m.path),
   ("size", JValue.jnum m.size),
   ("created_at", JValue.jstr (isoformat m.created_at)),
   ("modified_at", JValue.jstr (isoformat m.modified_at)),
   ("owner", JValue.jstr m.owner),
   ("permissions", JValue.jstr m.permissions),
   ("is_encrypted", JValue.jbool m.is_encrypted)]

/-- `data[k]` expecting a JSON string (a missing key is a raised
`KeyError`, i.e. `none`). -/
def getStr (data : RecordDict) (k : String) : Option String :=
  match lookupAL data k with
  | some (JValue.jstr s) => some s
  | _ => none

/-- `data[k]` expecting a JSON number. -/
def getNat (data : RecordDict) (k : String) : Option Nat :=
  match lookupAL data k with
  | some (JValue.jnum n) => some n
  | _ => none

/-- `FileMetadata.from_dict` (source lines 36-47): field extraction with
`KeyError` / `fromisoformat` failures modelled as `none`;
`data.get("is_encrypted", True)` defaults to `true` when absent. -/
def FileMetadata.from_dict (data : RecordDict) : Option FileMetadata :=
  match getStr data "filename", getStr data "path", getNat data "size",
        (getStr data "created_at").bind fromisoformat,
        (getStr data "modified_at").bind fromisoformat,
        getStr data "owner", getStr data "permissions" with
  | some filename, some path, some size, some created_at, some modified_at,
    some owner, some permissions =>
      some { filename := filename, path := path, size := size,
             created_at := created_at, modified_at := modified_at,
             owner := owner, permissions := permissions,
             is_encrypted :=
               match lookupAL data "is_encrypted" with
               | some (JValue.jbool b) => b
               | _ => true }
  | _, _, _, _, _, _, _ => none

/-- The document `_save_metadata` serializes:
`{k: v.to_dict() for k, v in self.metadata.items()}`. -/
def saveMetadataDoc (m : List (String × FileMetadata)) : List (String × RecordDict) :=
  m.map fun kv => (kv.1, kv.2.to_dict)

/-- The comprehension `_load_metadata` runs over a parsed document:
`{k: FileMetadata.from_dict(v) for k, v in data.items()}`, where any
failing record raises and so fails the whole comprehension. -/
def loadMetadataDoc : List (String × RecordDict) → Option (List (String × FileMetadata))
  | [] => some []
  | kv :: rest =>
    match FileMetadata.from_dict kv.2, loadMetadataDoc rest with
    | some r, some m => some ((kv.1, r) :: m)
    | _, _ => none

/-- The parse state of the document currently at `self.metadata_file`. -/
def currentMetaDoc (s : ManagerState) : MetaFileState :=
  (lookupAL s.metaDocs s.metadata_file).getD MetaFileState.absent

/-- `FileManager._load_metadata` (source lines 157-167): empty mapping if
the file is absent; any parse or I/O failure is caught and degrades to the
empty mapping; otherwise the comprehension over the parsed document. -/
def load_metadata (s : ManagerState) : List (String × FileMetadata) :=
  match currentMetaDoc s with
  | MetaFileState.absent => []
  | MetaFileState.corrupt => []
  | MetaFileState.doc d => (loadMetadataDoc d).getD []

/-- `FileManager._save_metadata` (source lines 169-176): overwrites the
metadata file with the serialized mapping; on an I/O failure (`saveOk`
false) the exception is caught, logged and dropped, so the state is
unchanged and nothing is raised. -/
def save_metadata (env : Env) (s : ManagerState) : ManagerState :=
  if env.saveOk then
    { s with metaDocs := (insertAL s.metaDocs s.metadata_file
          (MetaFileState.doc (saveMetadataDoc s.metadata))) }
  else s

/-- `FileManager._secure_file` (source lines 178-222): applies the
two-principal ACL; on platform failure it logs and re-raises. -/
def secure_file (env : Env) (s : ManagerState) : PyResult Unit :=
  if env.aclOk then PyResult.ok () s else PyResult.exn s

/-- `FileManager._create_secure_user_directory` (source lines 103-155):
raises `ValueError` when no user is set, creates the directory, and
re-raises on ACL failure. -/
def create_secure_user_directory (env : Env) (s : ManagerState) : PyResult Unit :=
  match s.current_user with
  | none => PyResult.exn s
  | some _ => if env.aclOk then PyResult.ok () s else PyResult.exn s

/-- `os.path.exists` restricted to the modelled files. -/
def pathExists (s : ManagerState) (p : String) : Bool :=
  (lookupAL s.fs p).isSome

/-- The `open(file_path, 'rb')` + `f.read(1)` probe inside
`_verify_user_access`: raises unless the path names a readable file. -/
def openReadProbe (s : ManagerState) (p : String) : Except Unit Unit :=
  match lookupAL s.fs p with
  | none => Except.error ()
  | some f => if f.readable then Except.ok () else Except.error ()

/-- `FileManager._verify_user_access` (source lines 224-249): `false` when
the path does not exist, `false` when the probe raises (the exception is
caught), `true` when the probe succeeds; total, hence never raises. -/
def verify_user_access (s : ManagerState) (p : String) : Bool :=
  if pathExists s p then
    match openReadProbe s p with
    | Except.ok _ => true
    | Except.error _ => false
  else false

/-- `FileManager.upload_file` (source lines 251-304).  Every early exit —
no user set (`ValueError`, caught by the method's own handler), missing
source, unreadable source, destination name collision — returns `ok false`
with the state unchanged.  Otherwise the file is copied (`shutil.copy2`:
content and `st_mtime` from the source, fresh `st_ctime` from the clock),
`_secure_file` is applied (its re-raise is caught here, giving `ok false`
with the copied file left behind), the record is built from the
destination's stat data and inserted, and the mapping is saved. -/
def upload_file (env : Env) (s : ManagerState) (source_path : String) : PyResult Bool :=
  match s.current_user with
  | none => PyResult.ok false s
  | some user =>
    match lookupAL s.fs source_path with
    | none => PyResult.ok false s
    | some src =>
      if src.readable = false then PyResult.ok false s
      else
        let filename := basename source_path
        let dest_path := joinPath s.user_dir filename
        if (lookupAL s.fs dest_path).isSome then PyResult.ok false s
        else
          let destFile : FSFile :=
            { content := src.content, readable := true,
              ctime := env.now, mtime := src.mtime }
          let s1 := { s with fs := (dest_path, destFile) :: s.fs }
          if env.aclOk = false then PyResult.ok false s1
          else
            let record : FileMetadata :=
              { filename := filename, path := dest_path,
                size := destFile.content.length,
                created_at := destFile.ctime, modified_at := destFile.mtime,
                owner := user, permissions := "rw-r--r--",
                is_encrypted := false }
            let s2 := { s1 with metadata := insertAL s1.metadata filename record }
            PyResult.ok true (save_metadata env s2)

/-- `FileManager.delete_file` (source lines 306-328): access verification
gates everything; on success the file is removed, and the metadata entry
keyed by the basename is removed and the mapping saved only when the entry
is present. -/
def delete_file (env : Env) (s : ManagerState) (file_path : String) : PyResult Bool :=
  if verify_user_access s file_path = false then PyResult.ok false s
  else
    let s1 := { s with fs := eraseAL s.fs file_path }
    let filename := basename file_path
    if (lookupAL s1.metadata filename).isSome then
      let s2 := { s1 with metadata := eraseAL s1.metadata filename }
      PyResult.ok true (save_metadata env s2)
    else PyResult.ok true s1

/-- `FileManager.set_user` (source lines 85-101): assigns the user fields,
provisions the secured directory (re-raising its failures with the fields
already mutated), then loads the user's metadata. -/
def set_user (env : Env) (s : ManagerState) (username : String) : PyResult Unit :=
  let u_dir := joinPath s.root_dir username
  let m_file := joinPath u_dir "metadata.json"
  let s1 := { s with current_user := some username,
                     user_dir := u_dir, metadata_file := m_file }
  match create_secure_user_directory env s1 with
  | PyResult.exn s2 => PyResult.exn s2
  | PyResult.ok _ s2 => PyResult.ok () { s2 with metadata := load_metadata s2 }

theorem lookupAL_insertAL_self {α : Type} (m : List (String × α)) (k : String) (v : α) :
    lookupAL (insertAL m k v) k = some v := by
  induction m with
  | nil => simp [insertAL, lookupAL]
  | cons kv rest ih =>
    by_cases h : kv.1 = k
    · simp [insertAL, lookupAL, h]
    · simp [insertAL, lookupAL, h, ih]

theorem lookupAL_eraseAL_self {α : Type} (m : List (String × α)) (k : String) :
    lookupAL (eraseAL m k) k = none := by
  induction m with
  | nil => simp [eraseAL, lookupAL]
  | cons kv rest ih =>
    by_cases h : kv.1 = k
    · simp [eraseAL, h, ih]
    · simp [eraseAL, lookupAL, h, ih]

theorem eraseAL_of_lookupAL_none {α : Type} (m : List (String × α)) (k : String)
    (h : lookupAL m k = none) : eraseAL m k = m := by
  induction m with
  | nil => rfl
  | cons kv rest ih =>
    by_cases hk : kv.1 = k
    · simp [lookupAL, hk] at h
    · simp [lookupAL, hk] at h
      simp [eraseAL, hk, ih h]

theorem mem_insertAL {α : Type} {m : List (String × α)} {k : String} {v : α}
    {kv : String × α} (h : kv ∈ insertAL m k v) : kv ∈ m ∨ kv = (k, v) := by
  induction m with
  | nil => simp [insertAL] at h; simp [h]
  | cons hd rest ih =>
    by_cases hk : hd.1 = k
    · simp [insertAL, hk] at h
      rcases h with h | h
      · right; simp [h]
      · left; simp [h]
    · simp [insertAL, hk] at h
      rcases h with h | h
      · left; simp [h]
      · rcases ih h with h' | h'
        · left; simp [h']
        · right; exact h'

theorem mem_eraseAL {α : Type} {m : List (String × α)} {k : String}
    {kv : String × α} (h : kv ∈ eraseAL m k) : kv ∈ m := by
  induction m with
  | nil => simp [eraseAL] at h
  | cons hd rest ih =>
    by_cases hk : hd.1 = k
    · simp [eraseAL, hk] at h
      exact List.mem_cons_of_mem hd (ih h)
    · simp [eraseAL, hk] at h
      rcases h with h | h
      · simp [h]
      · exact List.mem_cons_of_mem hd (ih h)

theorem lookupAL_mem {α : Type} {m : List (String × α)} {k : String} {v : α}
    (h : lookupAL m k = some v) : (k, v) ∈ m := by
  induction m with
  | nil => simp [lookupAL] at h
  | cons hd rest ih =>
    by_cases hk : hd.1 = k
    · simp [lookupAL, hk] at h
      subst hk; subst h; simp
    · simp [lookupAL, hk] at h
      exact List.mem_cons_of_mem hd (ih h)

/-- The record dictionary round trip: `from_dict` inverts `to_dict` for
every record, whatever its field values. -/
theorem from_dict_to_dict (m : FileMetadata) :
    FileMetadata.from_dict m.to_dict = some m := by
  cases m with
  | mk filename path size created_at modified_at owner permissions is_encrypted =>
    simp [FileMetadata.to_dict, FileMetadata.from_dict, getStr, getNat, lookupAL,
          fromisoformat_isoformat]

/-- The whole-document round trip: loading the document `_save_metadata`
writes reproduces the mapping exactly. -/
theorem loadMetadataDoc_saveMetadataDoc (m : List (String × FileMetadata)) :
    loadMetadataDoc (saveMetadataDoc m) = some m := by
  induction m with
  | nil => rfl
  | cons kv rest ih =>
    simp only [saveMetadataDoc, List.map_cons, loadMetadataDoc, from_dict_to_dict]
    simp only [saveMetadataDoc] at ih
    simp [ih]

theorem save_metadata_fs (env : Env) (s : ManagerState) :
    (save_metadata env s).fs = s.fs := by
  unfold save_metadata; split <;> rfl

theorem save_metadata_metadata (env : Env) (s : ManagerState) :
    (save_metadata env s).metadata = s.metadata := by
  unfold save_metadata; split <;> rfl

theorem save_metadata_metadata_file (env : Env) (s : ManagerState) :
    (save_metadata env s).metadata_file = s.metadata_file := by
  unfold save_metadata; split <;> rfl

/-- The key invariant of the metadata mapping: every key equals the
`filename` field of the record stored under it. -/
def invMeta (m : List (String × FileMetadata)) : Prop :=
  ∀ kv ∈ m, (kv.2 : FileMetadata).filename = kv.1

/-- A persisted document is well keyed when every record that parses at
all parses to a `FileMetadata` whose `filename` equals its key. -/
def docKeyed (d : List (String × RecordDict)) : Prop :=
  ∀ kv ∈ d, ∀ r, FileMetadata.from_dict kv.2 = some r → r.filename = kv.1

/-- Well-keyedness lifted to a metadata-file parse state (absent and
corrupt files load as the empty mapping, so they are trivially fine). -/
def docStateKeyed : MetaFileState → Prop
  | MetaFileState.doc d => docKeyed d
  | _ => True

/-- All persisted metadata documents in the state are well keyed. -/
def DocsOK (s : ManagerState) : Prop := ∀ kv ∈ s.metaDocs, docStateKeyed kv.2

/-- Reachability of a manager state by `set_user` (normal or raising),
`upload_file` and `delete_file` steps, each under an arbitrary
environment, starting from a fresh manager (empty in-memory mapping, no
active user) over any filesystem and any on-disk metadata documents
admitted by the predicate `P`. -/
inductive Reachable (P : ManagerState → Prop) : ManagerState → Prop where
  | start (fs : List (String × FSFile)) (docs : List (String × MetaFileState))
      (root : String)
      (h : P { fs := fs, metaDocs := docs, metadata := [], current_user := none,
               root_dir := root, user_dir := "", metadata_file := "" }) :
      Reachable P { fs := fs, metaDocs := docs, metadata := [], current_user := none,
                    root_dir := root, user_dir := "", metadata_file := "" }
  | set_user_ok (s : ManagerState) (env : Env) (u : String) (s' : ManagerState)
      (hr : Reachable P s) (h : set_user env s u = PyResult.ok () s') :
      Reachable P s'
  | set_user_exn (s : ManagerState) (env : Env) (u : String) (s' : ManagerState)
      (hr : Reachable P s) (h : set_user env s u = PyResult.exn s') :
      Reachable P s'
  | upload_step (s : ManagerState) (env : Env) (p : String) (b : Bool)
      (s' : ManagerState)
      (hr : Reachable P s) (h : upload_file env s p = PyResult.ok b s') :
      Reachable P s'
  | delete_step (s : ManagerState) (env : Env) (p : String) (b : Bool)
      (s' : ManagerState)
      (hr : Reachable P s) (h : delete_file env s p = PyResult.ok b s') :
      Reachable P s'

theorem docKeyed_saveMetadataDoc {m : List (String × FileMetadata)}
    (h : invMeta m) : docKeyed (saveMetadataDoc m) := by
  intro kv hkv r hr
  simp only [saveMetadataDoc, List.mem_map] at hkv
  obtain ⟨kv0, hkv0, hmap⟩ := hkv
  subst hmap
  simp only [from_dict_to_dict, Option.some.injEq] at hr
  subst hr
  exact h kv0 hkv0

theorem loadMetadataDoc_invMeta {d : List (String × RecordDict)}
    (hd : docKeyed d) {m : List (String × FileMetadata)}
    (hm : loadMetadataDoc d = some m) : invMeta m := by
  induction d generalizing m with
  | nil =>
    simp only [loadMetadataDoc, Option.some.injEq] at hm
    subst hm; intro kv hkv; simp at hkv
  | cons kv rest ih =>
    simp only [loadMetadataDoc] at hm
    rcases hfd : FileMetadata.from_dict kv.2 with _ | r <;> rw [hfd] at hm
    · exact absurd hm (by simp)
    · rcases hrest : loadMetadataDoc rest with _ | m' <;> rw [hrest] at hm
      · exact absurd hm (by simp)
      · simp only [Option.some.injEq] at hm
        subst hm
        intro kv' hkv'
        rcases List.mem_cons.mp hkv' with h' | h'
        · subst h'
          exact hd kv (List.mem_cons_self kv rest) r hfd
        · exact ih (fun kv2 hkv2 => hd kv2 (List.mem_cons_of_mem kv hkv2)) hrest kv' h'

theorem invMeta_insertAL {m : List (String × FileMetadata)} {k : String}
    {v : FileMetadata} (h : invMeta m) (hv : v.filename = k) :
    invMeta (insertAL m k v) := by
  intro kv hkv
  rcases mem_insertAL hkv with h' | h'
  · exact h kv h'
  · subst h'; exact hv

theorem invMeta_eraseAL {m : List (String × FileMetadata)} {k : String}
    (h : invMeta m) : invMeta (eraseAL m k) :=
  fun kv hkv => h kv (mem_eraseAL hkv)

theorem load_metadata_invMeta {s : ManagerState} (h : ∀ kv ∈ s.metaDocs, docStateKeyed kv.2) :
    invMeta (load_metadata s) := by
  unfold load_metadata currentMetaDoc
  rcases hl : lookupAL s.metaDocs s.metadata_file with _ | st
  · intro kv hkv; simp at hkv
  · have hst : docStateKeyed st := h (s.metadata_file, st) (lookupAL_mem hl)
    cases st with
    | absent => intro kv hkv; simp at hkv
    | corrupt => intro kv hkv; simp at hkv
    | doc d =>
      simp only [Option.getD_some]
      rcases hm : loadMetadataDoc d with _ | m
      · intro kv hkv; simp at hkv
      · exact loadMetadataDoc_invMeta hst hm

/-- The field mutation `set_user` performs before provisioning the
directory (source lines 88-90). -/
def userMut (s : ManagerState) (u : String) : ManagerState :=
  { s with current_user := some u,
           user_dir := joinPath s.root_dir u,
           metadata_file := joinPath (joinPath s.root_dir u) "metadata.json" }

theorem set_user_eq (env : Env) (s : ManagerState) (u : String) :
    set_user env s u =
      if env.aclOk then
        PyResult.ok () { userMut s u with metadata := load_metadata (userMut s u) }
      else PyResult.exn (userMut s u) := by
  unfold set_user create_secure_user_directory userMut
  cases env.aclOk <;> simp

theorem save_metadata_docsOK {env : Env} {s : ManagerState}
    (hd : DocsOK s) (hm : invMeta s.metadata) : DocsOK (save_metadata env s) := by
  unfold save_metadata
  by_cases hs : env.saveOk
  · rw [if_pos hs]
    intro kv hkv
    rcases mem_insertAL hkv with h' | h'
    · exact hd kv h'
    · subst h'
      exact docKeyed_saveMetadataDoc hm
  · rw [if_neg hs]; exact hd

/-- The destination path `upload_file` derives (source lines 270-271). -/
def destPath (s : ManagerState) (source_path : String) : String :=
  joinPath s.user_dir (basename source_path)

/-- The destination file `shutil.copy2` produces: the source's bytes and
`st_mtime`, a fresh `st_ctime` from the clock. -/
def copiedFile (env : Env) (src : FSFile) : FSFile :=
  { content := src.content, readable := true, ctime := env.now, mtime := src.mtime }

/-- The state right after the copy step of `upload_file`. -/
def uploadCopied (env : Env) (s : ManagerState) (source_path : String)
    (src : FSFile) : ManagerState :=
  { s with fs := (destPath s source_path, copiedFile env src) :: s.fs }

/-- The `FileMetadata` record `upload_file` builds from the destination's
stat data (source lines 285-295). -/
def uploadRecord (env : Env) (s : ManagerState) (source_path : String)
    (src : FSFile) (user : String) : FileMetadata :=
  { filename := basename source_path, path := destPath s source_path,
    size := (copiedFile env src).content.length,
    created_at := (copiedFile env src).ctime,
    modified_at := (copiedFile env src).mtime,
    owner := user, permissions := "rw-r--r--", is_encrypted := false }

/-- The state right after the metadata insertion of `upload_file`. -/
def uploadInserted (env : Env) (s : ManagerState) (source_path : String)
    (src : FSFile) (user : String) : ManagerState :=
  { uploadCopied env s source_path src with
      metadata := insertAL s.metadata (basename source_path)
        (uploadRecord env s source_path src user) }

theorem upload_file_no_user (env : Env) (s : ManagerState) (p : String)
    (h : s.current_user = none) : upload_file env s p = PyResult.ok false s := by
  unfold upload_file; rw [h]

theorem upload_file_no_source (env : Env) (s : ManagerState) (p : String)
    (user : String) (h : s.current_user = some user)
    (hsrc : lookupAL s.fs p = none) : upload_file env s p = PyResult.ok false s := by
  unfold upload_file; rw [h, hsrc]

theorem upload_file_unreadable (env : Env) (s : ManagerState) (p : String)
    (user : String) (src : FSFile) (h : s.current_user = some user)
    (hsrc : lookupAL s.fs p = some src) (hr : src.readable = false) :
    upload_file env s p = PyResult.ok false s := by
  unfold upload_file; rw [h, hsrc]; simp [hr]

theorem upload_file_collision (env : Env) (s : ManagerState) (p : String)
    (user : String) (src : FSFile) (h : s.current_user = some user)
    (hsrc : lookupAL s.fs p = some src)
    (hdest : (lookupAL s.fs (destPath s p)).isSome) :
    upload_file env s p = PyResult.ok false s := by
  unfold upload_file; rw [h, hsrc]
  by_cases hr : src.readable = false
  · simp [hr]
  · simp only [destPath] at hdest
    simp [hr, hdest]

theorem upload_file_acl_fail (env : Env) (s : ManagerState) (p : String)
    (user : String) (src : FSFile) (h : s.current_user = some user)
    (hsrc : lookupAL s.fs p = some src) (hr : src.readable = true)
    (hdest : lookupAL s.fs (destPath s p) = none) (hacl : env.aclOk = false) :
    upload_file env s p = PyResult.ok false (uploadCopied env s p src) := by
  unfold upload_file
  rw [h, hsrc]
  simp only [destPath, joinPath] at hdest
  simp [hr, hdest, hacl, uploadCopied, copiedFile, destPath, joinPath]
  exact h.symm

theorem upload_file_success (env : Env) (s : ManagerState) (p : String)
    (user : String) (src : FSFile) (h : s.current_user = some user)
    (hsrc : lookupAL s.fs p = some src) (hr : src.readable = true)
    (hdest : lookupAL s.fs (destPath s p) = none) (hacl : env.aclOk = true) :
    upload_file env s p =
      PyResult.ok true (save_metadata env (uploadInserted env s p src user)) := by
  unfold upload_file
  rw [h, hsrc]
  simp only [destPath, joinPath] at hdest
  simp [hr, hdest, hacl, uploadInserted, uploadCopied, uploadRecord, copiedFile,
        destPath, joinPath]
  rw [h]

/-- The state right after the `os.remove` step of `delete_file`. -/
def deleteFs (s : ManagerState) (file_path : String) : ManagerState :=
  { s with fs := eraseAL s.fs file_path }

/-- The state after `os.remove` plus the metadata deletion. -/
def deleteBoth (s : ManagerState) (file_path : String) : ManagerState :=
  { deleteFs s file_path with metadata := eraseAL s.metadata (basename file_path) }

theorem delete_file_no_access (env : Env) (s : ManagerState) (p : String)
    (h : verify_user_access s p = false) :
    delete_file env s p = PyResult.ok false s := by
  unfold delete_file; simp [h]

theorem delete_file_with_entry (env : Env) (s : ManagerState) (p : String)
    (h : verify_user_access s p = true)
    (hmem : (lookupAL s.metadata (basename p)).isSome) :
    delete_file env s p = PyResult.ok true (save_metadata env (deleteBoth s p)) := by
  unfold delete_file
  simp [h, hmem, deleteBoth, deleteFs]

theorem delete_file_no_entry (env : Env) (s : ManagerState) (p : String)
    (h : verify_user_access s p = true)
    (hmem : lookupAL s.metadata (basename p) = none) :
    delete_file env s p = PyResult.ok true (deleteFs s p) := by
  unfold delete_file
  simp [h, hmem, deleteFs]

theorem upload_preserves {env : Env} {s : ManagerState} {p : String} {b : Bool}
    {s' : ManagerState} (heq : upload_file env s p = PyResult.ok b s')
    (hd : DocsOK s) (hm : invMeta s.metadata) : DocsOK s' ∧ invMeta s'.metadata := by
  rcases hu : s.current_user with _ | user
  · rw [upload_file_no_user env s p hu] at heq; cases heq; exact ⟨hd, hm⟩
  · rcases hsrc : lookupAL s.fs p with _ | src
    · rw [upload_file_no_source env s p user hu hsrc] at heq; cases heq
      exact ⟨hd, hm⟩
    · rcases hr : src.readable with _ | _
      · rw [upload_file_unreadable env s p user src hu hsrc hr] at heq; cases heq
        exact ⟨hd, hm⟩
      · rcases hdest : lookupAL s.fs (destPath s p) with _ | dst
        · rcases hacl : env.aclOk with _ | _
          · rw [upload_file_acl_fail env s p user src hu hsrc hr hdest hacl] at heq
            cases heq
            exact ⟨hd, hm⟩
          · rw [upload_file_success env s p user src hu hsrc hr hdest hacl] at heq
            cases heq
            refine ⟨save_metadata_docsOK (fun kv hkv => hd kv hkv) ?_, ?_⟩
            · exact invMeta_insertAL hm rfl
            · rw [save_metadata_metadata]
              exact invMeta_insertAL hm rfl
        · have hds : (lookupAL s.fs (destPath s p)).isSome := by rw [hdest]; rfl
          rw [upload_file_collision env s p user src hu hsrc hds] at heq; cases heq
          exact ⟨hd, hm⟩

theorem delete_preserves {env : Env} {s : ManagerState} {p : String} {b : Bool}
    {s' : ManagerState} (heq : delete_file env s p = PyResult.ok b s')
    (hd : DocsOK s) (hm : invMeta s.metadata) : DocsOK s' ∧ invMeta s'.metadata := by
  rcases hv : verify_user_access s p with _ | _
  · rw [delete_file_no_access env s p hv] at heq; cases heq; exact ⟨hd, hm⟩
  · rcases hmem : lookupAL s.metadata (basename p) with _ | r
    · rw [delete_file_no_entry env s p hv hmem] at heq; cases heq
      exact ⟨hd, hm⟩
    · have hms : (lookupAL s.metadata (basename p)).isSome := by rw [hmem]; rfl
      rw [delete_file_with_entry env s p hv hms] at heq; cases heq
      refine ⟨save_metadata_docsOK (fun kv hkv => hd kv hkv) ?_, ?_⟩
      · exact invMeta_eraseAL hm
      · rw [save_metadata_metadata]
        exact invMeta_eraseAL hm

theorem reachable_docsOK_invMeta {s : ManagerState}
    (h : Reachable DocsOK s) : DocsOK s ∧ invMeta s.metadata := by
  induction h with
  | start fs docs root hP =>
    exact ⟨hP, fun kv hkv => absurd hkv (List.not_mem_nil kv)⟩
  | set_user_ok s env u s' hr heq ih =>
    rw [set_user_eq] at heq
    by_cases hacl : env.aclOk
    · rw [if_pos hacl] at heq
      cases heq
      exact ⟨ih.1, load_metadata_invMeta (fun kv hkv => ih.1 kv hkv)⟩
    · rw [if_neg hacl] at heq; cases heq
  | set_user_exn s env u s' hr heq ih =>
    rw [set_user_eq] at heq
    by_cases hacl : env.aclOk
    · rw [if_pos hacl] at heq; cases heq
    · rw [if_neg hacl] at heq
      cases heq
      exact ⟨fun kv hkv => ih.1 kv hkv, ih.2⟩
  | upload_step s env p b s' hr heq ih => exact upload_preserves heq ih.1 ih.2
  | delete_step s env p b s' hr heq ih => exact delete_preserves heq ih.1 ih.2

/-! Concrete states used by the witnesses. -/

/-- A readable source file. -/
def wSrc : FSFile := { content := [1, 2, 3], readable := true, ctime := 5, mtime := 7 }

/-- A distinct file already sitting at the destination. -/
def wDest : FSFile := { content := [9], readable := true, ctime := 1, mtime := 2 }

/-- A manager state with an active user whose directory already holds
`report.txt`, while a different `report.txt` exists as upload source. -/
def wCollision : ManagerState :=
  { fs := [("/src/report.txt", wSrc), ("/root/u/report.txt", wDest)],
    metaDocs := [], metadata := [], current_user := some "u",
    root_dir := "/root", user_dir := "/root/u",
    metadata_file := "/root/u/metadata.json" }

/-- A fault-free environment. -/
def wEnv : Env := { aclOk := true, saveOk := true, now := 9 }

/-- Claim C1: whenever the destination directory already contains a file
with the same base name as the source, `upload_file` fails: it returns
`false` as a normal (non-raising) result and the whole state — in
particular the existing destination file's bytes and the metadata
mapping, in memory and on disk — is exactly unchanged. -/
theorem upload_file_collision_fails (env : Env) (s : ManagerState)
    (source_path : String) (f : FSFile)
    (h : lookupAL s.fs (joinPath s.user_dir (basename source_path)) = some f) :
    upload_file env s source_path = PyResult.ok false s := by
  rcases hu : s.current_user with _ | user
  · exact upload_file_no_user env s source_path hu
  · rcases hsrc : lookupAL s.fs source_path with _ | src
    · exact upload_file_no_source env s source_path user hu hsrc
    · rcases hr : src.readable with _ | _
      · exact upload_file_unreadable env s source_path user src hu hsrc hr
      · refine upload_file_collision env s source_path user src hu hsrc ?_
        unfold destPath
        rw [h]
        rfl

/-- Witness for C1: the concrete `report.txt` collision of the spec. -/
theorem upload_file_collision_fails_witness :
    upload_file wEnv wCollision "/src/report.txt" = PyResult.ok false wCollision :=
  upload_file_collision_fails wEnv wCollision "/src/report.txt" wDest (by decide)

/-- A manager state with a non-empty in-memory mapping. -/
def wRec : FileMetadata :=
  { filename := "report.txt", path := "/root/u/report.txt", size := 3,
    created_at := 123456789, modified_at := 7, owner := "u",
    permissions := "rw-r--r--", is_encrypted := false }

/-- State used by the round-trip witness. -/
def wWithMeta : ManagerState :=
  { wCollision with metadata := [("report.txt", wRec)] }

/-- Claim C2: `_save_metadata` followed by `_load_metadata` reproduces the
in-memory mapping exactly, for every mapping of records with arbitrary
field values: the same keys in the same order, and under each key a record
all of whose fields — `filename`, `path`, `size`, the two timestamps
(which travel losslessly through their text rendering), `owner`,
`permissions` and `is_encrypted` — equal the original's. -/
theorem metadata_roundtrip (env : Env) (s : ManagerState)
    (h : env.saveOk = true) :
    load_metadata (save_metadata env s) = s.metadata := by
  unfold save_metadata
  rw [h]
  simp only [if_true]
  unfold load_metadata currentMetaDoc
  have hl : lookupAL
      (insertAL s.metaDocs s.metadata_file
        (MetaFileState.doc (saveMetadataDoc s.metadata))) s.metadata_file =
      some (MetaFileState.doc (saveMetadataDoc s.metadata)) :=
    lookupAL_insertAL_self s.metaDocs s.metadata_file
      (MetaFileState.doc (saveMetadataDoc s.metadata))
  rw [show ({ s with metaDocs := (insertAL s.metaDocs s.metadata_file
        (MetaFileState.doc (saveMetadataDoc s.metadata))) } : ManagerState).metadata_file
      = s.metadata_file from rfl] at *
  simp [hl, loadMetadataDoc_saveMetadataDoc]

/-- Witness for C2 at a concrete non-empty mapping. -/
theorem metadata_roundtrip_witness :
    load_metadata (save_metadata wEnv wWithMeta) = wWithMeta.metadata :=
  metadata_roundtrip wEnv wWithMeta (by decide)

/-- Claim C3: on every `delete_file` call whose access verification passes
(metadata writes succeeding), the call returns `true`; the underlying file
is removed; the metadata entry keyed by the path's base name is gone and,
when it was present, the mapping is persisted; when no such entry existed
the deletion still succeeds and the persisted documents are untouched. -/
theorem delete_file_success_effects (env : Env) (s : ManagerState) (p : String)
    (hv : verify_user_access s p = true) (hs : env.saveOk = true) :
    ∃ s', delete_file env s p = PyResult.ok true s' ∧
      s'.fs = eraseAL s.fs p ∧
      lookupAL s'.fs p = none ∧
      s'.metadata = eraseAL s.metadata (basename p) ∧
      ((lookupAL s.metadata (basename p)).isSome = true →
        lookupAL s'.metaDocs s.metadata_file =
          some (MetaFileState.doc (saveMetadataDoc s'.metadata))) ∧
      ((lookupAL s.metadata (basename p)).isSome = false →
        s'.metaDocs = s.metaDocs) := by
  rcases hmem : lookupAL s.metadata (basename p) with _ | r
  · refine ⟨deleteFs s p, delete_file_no_entry env s p hv hmem, rfl,
      lookupAL_eraseAL_self s.fs p, ?_, ?_, fun _ => rfl⟩
    · exact (eraseAL_of_lookupAL_none s.metadata (basename p) hmem).symm
    · intro hcon
      cases hcon
  · have hms : (lookupAL s.metadata (basename p)).isSome := by rw [hmem]; rfl
    refine ⟨save_metadata env (deleteBoth s p),
      delete_file_with_entry env s p hv hms, ?_, ?_, ?_, ?_, ?_⟩
    · rw [save_metadata_fs]; rfl
    · rw [save_metadata_fs]
      exact lookupAL_eraseAL_self s.fs p
    · rw [save_metadata_metadata]; rfl
    · intro _
      rw [save_metadata_metadata]
      unfold save_metadata
      rw [hs]
      simp only [if_true]
      exact lookupAL_insertAL_self _ _ _
    · intro hcon
      cases hcon

/-- A state whose filesystem and metadata both hold `a.txt`. -/
def wDel : ManagerState :=
  { fs := [("/root/u/a.txt", wSrc)],
    metaDocs := [], metadata := [("a.txt",
      { filename := "a.txt", path := "/root/u/a.txt", size := 3,
        created_at := 5, modified_at := 7, owner := "u",
        permissions := "rw-r--r--", is_encrypted := false })],
    current_user := some "u", root_dir := "/root", user_dir := "/root/u",
    metadata_file := "/root/u/metadata.json" }

/-- Witness for C3: deleting the tracked `a.txt` at a concrete state. -/
theorem delete_file_success_effects_witness :
    ∃ s', delete_file wEnv wDel "/root/u/a.txt" = PyResult.ok true s' ∧
      s'.fs = eraseAL wDel.fs "/root/u/a.txt" ∧
      lookupAL s'.fs "/root/u/a.txt" = none ∧
      s'.metadata = eraseAL wDel.metadata (basename "/root/u/a.txt") ∧
      ((lookupAL wDel.metadata (basename "/root/u/a.txt")).isSome = true →
        lookupAL s'.metaDocs wDel.metadata_file =
          some (MetaFileState.doc (saveMetadataDoc s'.metadata))) ∧
      ((lookupAL wDel.metadata (basename "/root/u/a.txt")).isSome = false →
        s'.metaDocs = wDel.metaDocs) :=
  delete_file_success_effects wEnv wDel "/root/u/a.txt" (by decide) (by decide)

/-- Claim C4: `_verify_user_access` is a total boolean probe — the model
gives it the non-raising type `ManagerState → String → Bool` because the
source catches every exception of the open-and-read attempt — and it
returns `false` when the path does not exist, `false` whenever the probe
raises (permission denied, lock, I/O error: any `readable = false` file),
and `true` when the path exists and the probe read succeeds. -/
theorem verify_user_access_spec (s : ManagerState) (p : String) :
    (pathExists s p = false → verify_user_access s p = false) ∧
    (∀ e : Unit, openReadProbe s p = Except.error e →
      verify_user_access s p = false) ∧
    (pathExists s p = true → openReadProbe s p = Except.ok () →
      verify_user_access s p = true) := by
  refine ⟨?_, ?_, ?_⟩
  · intro h
    unfold verify_user_access
    rw [h]
    rfl
  · intro e he
    unfold verify_user_access
    rw [he]
    split <;> rfl
  · intro hx hp
    unfold verify_user_access
    rw [hx, hp]
    rfl

/-- A state holding one readable and one unreadable file. -/
def wProbe : ManagerState :=
  { wCollision with fs :=
      [("/root/u/ok.txt", wSrc),
       ("/root/u/locked.txt", { wSrc with readable := false })] }

/-- Witness for C4: nonexistent path, unreadable path, readable path. -/
theorem verify_user_access_spec_witness :
    verify_user_access wProbe "/root/u/none.txt" = false ∧
    verify_user_access wProbe "/root/u/locked.txt" = false ∧
    verify_user_access wProbe "/root/u/ok.txt" = true :=
  ⟨(verify_user_access_spec wProbe "/root/u/none.txt").1 (by decide),
   (verify_user_access_spec wProbe "/root/u/locked.txt").2.1 () rfl,
   (verify_user_access_spec wProbe "/root/u/ok.txt").2.2 (by decide) rfl⟩

/-- Claim C6: metadata I/O errors are recovered locally and never raised.
`_load_metadata` returns the empty mapping when the metadata file is
absent, when it is unparseable, and when any record of a parsed document
fails to convert; `_save_metadata` on a write failure returns normally
with the whole state — in particular the in-memory mapping and the
persisted documents — unchanged.  Both operations carry non-raising types
in the model, mirroring the catch-all handlers in the source. -/
theorem metadata_io_errors_recovered (env : Env) (s : ManagerState) :
    (currentMetaDoc s = MetaFileState.absent → load_metadata s = []) ∧
    (currentMetaDoc s = MetaFileState.corrupt → load_metadata s = []) ∧
    (∀ d, currentMetaDoc s = MetaFileState.doc d → loadMetadataDoc d = none →
      load_metadata s = []) ∧
    (env.saveOk = false → save_metadata env s = s) := by
  refine ⟨?_, ?_, ?_, ?_⟩
  · intro h
    unfold load_metadata
    rw [h]
  · intro h
    unfold load_metadata
    rw [h]
  · intro d h hn
    unfold load_metadata
    rw [h]
    show (loadMetadataDoc d).getD [] = []
    rw [hn]
    rfl
  · intro h
    unfold save_metadata
    rw [h]
    rfl

/-- State whose current metadata file is unparseable. -/
def wCorrupt : ManagerState :=
  { wCollision with metaDocs := [("/root/u/metadata.json", MetaFileState.corrupt)] }

/-- State whose current metadata file holds a record that fails to
convert (empty dictionary: the `filename` access raises `KeyError`). -/
def wBadRecordDoc : ManagerState :=
  { wCollision with metaDocs :=
      [("/root/u/metadata.json", MetaFileState.doc [("a", [])])] }

/-- Environment in which the metadata write fails. -/
def wEnvNoSave : Env := { aclOk := true, saveOk := false, now := 9 }

/-- Witness for C6: absent file, corrupt file, failing record, and a
failing save, all at concrete states. -/
theorem metadata_io_errors_recovered_witness :
    load_metadata wCollision = [] ∧
    load_metadata wCorrupt = [] ∧
    load_metadata wBadRecordDoc = [] ∧
    save_metadata wEnvNoSave wWithMeta = wWithMeta :=
  ⟨(metadata_io_errors_recovered wEnv wCollision).1 (by decide),
   (metadata_io_errors_recovered wEnv wCorrupt).2.1 (by decide),
   (metadata_io_errors_recovered wEnv wBadRecordDoc).2.2.1 [("a", [])]
     (by decide) (by decide),
   (metadata_io_errors_recovered wEnvNoSave wWithMeta).2.2.2 (by decide)⟩

/-- Claim C7: when the access-verification probe fails, `delete_file`
returns `false` as a normal result and performs no mutation at all: the
returned state is the input state, so the target file, the in-memory
mapping and the persisted documents are all untouched. -/
theorem delete_file_verify_failure_frame (env : Env) (s : ManagerState)
    (p : String) (h : verify_user_access s p = false) :
    delete_file env s p = PyResult.ok false s :=
  delete_file_no_access env s p h

/-- Witness for C7: deleting a nonexistent path at a concrete state. -/
theorem delete_file_verify_failure_frame_witness :
    delete_file wEnv wCollision "/root/u/none.txt" = PyResult.ok false wCollision :=
  delete_file_verify_failure_frame wEnv wCollision "/root/u/none.txt" (by decide)

/-- Claim C8: on every successful upload the inserted record is built from
the destination file's actual stat data — its size, its creation time
(the fresh `st_ctime` the destination receives, not the source's), and
its modification time — with `owner` the active user, and it always
carries `is_encrypted = false` and the synthetic permission string
`rw-r--r--` regardless of the actual file state. -/
theorem upload_file_success_record (env : Env) (s : ManagerState) (p : String)
    (user : String) (src : FSFile)
    (hu : s.current_user = some user)
    (hsrc : lookupAL s.fs p = some src)
    (hr : src.readable = true)
    (hdest : lookupAL s.fs (destPath s p) = none)
    (hacl : env.aclOk = true) :
    ∃ s', upload_file env s p = PyResult.ok true s' ∧
      lookupAL s'.fs (destPath s p) = some (copiedFile env src) ∧
      lookupAL s'.metadata (basename p) = some (uploadRecord env s p src user) ∧
      (uploadRecord env s p src user).size = (copiedFile env src).content.length ∧
      (uploadRecord env s p src user).created_at = (copiedFile env src).ctime ∧
      (uploadRecord env s p src user).modified_at = (copiedFile env src).mtime ∧
      (uploadRecord env s p src user).owner = user ∧
      (uploadRecord env s p src user).permissions = "rw-r--r--" ∧
      (uploadRecord env s p src user).is_encrypted = false := by
  refine ⟨save_metadata env (uploadInserted env s p src user),
    upload_file_success env s p user src hu hsrc hr hdest hacl,
    ?_, ?_, rfl, rfl, rfl, rfl, rfl, rfl⟩
  · rw [save_metadata_fs]
    show lookupAL ((destPath s p, copiedFile env src) :: s.fs) (destPath s p) = _
    simp [lookupAL]
  · rw [save_metadata_metadata]
    show lookupAL (insertAL s.metadata (basename p) (uploadRecord env s p src user))
      (basename p) = _
    exact lookupAL_insertAL_self _ _ _

/-- State with only the source file, destination free. -/
def wUpSrc : ManagerState :=
  { wCollision with fs := [("/src/report.txt", wSrc)] }

/-- Witness for C8 at a concrete fresh upload. -/
theorem upload_file_success_record_witness :
    ∃ s', upload_file wEnv wUpSrc "/src/report.txt" = PyResult.ok true s' ∧
      lookupAL s'.fs (destPath wUpSrc "/src/report.txt") = some (copiedFile wEnv wSrc) ∧
      lookupAL s'.metadata (basename "/src/report.txt") =
        some (uploadRecord wEnv wUpSrc "/src/report.txt" wSrc "u") ∧
      (uploadRecord wEnv wUpSrc "/src/report.txt" wSrc "u").size =
        (copiedFile wEnv wSrc).content.length ∧
      (uploadRecord wEnv wUpSrc "/src/report.txt" wSrc "u").created_at =
        (copiedFile wEnv wSrc).ctime ∧
      (uploadRecord wEnv wUpSrc "/src/report.txt" wSrc "u").modified_at =
        (copiedFile wEnv wSrc).mtime ∧
      (uploadRecord wEnv wUpSrc "/src/report.txt" wSrc "u").owner = "u" ∧
      (uploadRecord wEnv wUpSrc "/src/report.txt" wSrc "u").permissions = "rw-r--r--" ∧
      (uploadRecord wEnv wUpSrc "/src/report.txt" wSrc "u").is_encrypted = false :=
  upload_file_success_record wEnv wUpSrc "/src/report.txt" "u" wSrc
    (by decide) (by decide) (by decide) (by decide) (by decide)

/-- Claim C10: `delete_file` never checks that its argument lies in the
active user's directory: the verification step reads only existence and
readability (it is invariant under changing `user_dir`), so any existing
readable path — wherever it lives — is deleted with result `true`. -/
theorem delete_file_no_containment_check (env : Env) (s : ManagerState)
    (p : String) (f : FSFile)
    (hf : lookupAL s.fs p = some f) (hr : f.readable = true) :
    (∀ d, verify_user_access { s with user_dir := d } p = verify_user_access s p) ∧
    ∃ s', delete_file env s p = PyResult.ok true s' ∧ lookupAL s'.fs p = none := by
  constructor
  · intro d
    rfl
  · have hv : verify_user_access s p = true := by
      unfold verify_user_access pathExists openReadProbe
      rw [hf]
      simp [hr]
    rcases hmem : lookupAL s.metadata (basename p) with _ | r
    · exact ⟨deleteFs s p, delete_file_no_entry env s p hv hmem,
        lookupAL_eraseAL_self s.fs p⟩
    · have hms : (lookupAL s.metadata (basename p)).isSome := by rw [hmem]; rfl
      refine ⟨save_metadata env (deleteBoth s p),
        delete_file_with_entry env s p hv hms, ?_⟩
      rw [save_metadata_fs]
      exact lookupAL_eraseAL_self s.fs p

/-- State where the only file lies outside the user's directory. -/
def wOutside : ManagerState :=
  { wCollision with fs := [("/etc/passwd", wSrc)] }

/-- Witness for C10: deleting `/etc/passwd`, far outside `/root/u`. -/
theorem delete_file_no_containment_check_witness :
    verify_user_access { wOutside with user_dir := "/elsewhere" } "/etc/passwd" =
      verify_user_access wOutside "/etc/passwd" ∧
    ∃ s', delete_file wEnv wOutside "/etc/passwd" = PyResult.ok true s' ∧
      lookupAL s'.fs "/etc/passwd" = none :=
  ⟨(delete_file_no_containment_check wEnv wOutside "/etc/passwd" wSrc
      (by decide) (by decide)).1 "/elsewhere",
   (delete_file_no_containment_check wEnv wOutside "/etc/passwd" wSrc
      (by decide) (by decide)).2⟩

/-- Environment in which the platform ACL primitive fails. -/
def wAclEnv : Env := { aclOk := false, saveOk := true, now := 9 }

/-- Counterexample to claim C5: with the ACL primitive failing
(`aclOk = false`), an upload that reaches the per-file securing step —
the returned state shows the destination file already copied — still
yields the normal boolean result `ok false`, not a raised failure:
`upload_file`'s own catch-all handler converts `_secure_file`'s
re-raise into `False`, contradicting the claim that every ACL failure
propagates to the caller as a raise. -/
theorem acl_failure_upload_cex :
    wAclEnv.aclOk = false ∧
    upload_file wAclEnv wUpSrc "/src/report.txt" =
      PyResult.ok false (uploadCopied wAclEnv wUpSrc "/src/report.txt" wSrc) := by
  constructor
  · rfl
  · decide

/-- Claim C5 as amended: an ACL failure while provisioning the user
directory does propagate as a raise (`set_user` re-raises with its user
fields already mutated), and `_secure_file` itself re-raises to its
direct caller; but when `_secure_file` fails while securing a freshly
uploaded file, `upload_file` catches the raise and converts it into the
boolean result `false`, leaving the copied (unsecured) destination file
in place. -/
theorem acl_failure_propagation_amended (env : Env) (s : ManagerState)
    (u : String) (h : env.aclOk = false) :
    set_user env s u = PyResult.exn (userMut s u) ∧
    secure_file env s = PyResult.exn s ∧
    (∀ p user src, s.current_user = some user → lookupAL s.fs p = some src →
      src.readable = true → lookupAL s.fs (destPath s p) = none →
      upload_file env s p = PyResult.ok false (uploadCopied env s p src)) := by
  refine ⟨?_, ?_, ?_⟩
  · rw [set_user_eq]
    simp [h]
  · unfold secure_file
    simp [h]
  · intro p user src hu hsrc hr hdest
    exact upload_file_acl_fail env s p user src hu hsrc hr hdest h

/-- Witness for the amended C5 at a concrete state: the directory
provisioning raises, the file-securing primitive raises, and the upload
converts the same failure into `ok false`. -/
theorem acl_failure_propagation_amended_witness :
    set_user wAclEnv wUpSrc "u" = PyResult.exn (userMut wUpSrc "u") ∧
    secure_file wAclEnv wUpSrc = PyResult.exn wUpSrc ∧
    upload_file wAclEnv wUpSrc "/src/report.txt" =
      PyResult.ok false (uploadCopied wAclEnv wUpSrc "/src/report.txt" wSrc) := by
  have h := acl_failure_propagation_amended wAclEnv wUpSrc "u" (by decide)
  exact ⟨h.1, h.2.1,
    h.2.2 "/src/report.txt" "u" wSrc (by decide) (by decide) (by decide) (by decide)⟩

/-- A persisted record dictionary whose `filename` field (`"b"`) differs
from the key it is stored under (`"a"`). -/
def wBadDict : RecordDict :=
  [("filename", JValue.jstr "b"), ("path", JValue.jstr "/x"),
   ("size", JValue.jnum 1), ("created_at", JValue.jstr "1"),
   ("modified_at", JValue.jstr "1"), ("owner", JValue.jstr "u"),
   ("permissions", JValue.jstr "rw"), ("is_encrypted", JValue.jbool false)]

/-- Fresh manager over a disk whose metadata document is mis-keyed. -/
def wBadStart : ManagerState :=
  { fs := [], metaDocs := [("/root/u/metadata.json", MetaFileState.doc [("a", wBadDict)])],
    metadata := [], current_user := none, root_dir := "/root",
    user_dir := "", metadata_file := "" }

/-- The record `wBadDict` parses to. -/
def wBadRec : FileMetadata :=
  { filename := "b", path := "/x", size := 1, created_at := 1,
    modified_at := 1, owner := "u", permissions := "rw", is_encrypted := false }

/-- The state `set_user` reaches from `wBadStart`: its in-memory mapping
stores `wBadRec` (filename `"b"`) under the key `"a"`. -/
def wBadReached : ManagerState :=
  { fs := [], metaDocs := [("/root/u/metadata.json", MetaFileState.doc [("a", wBadDict)])],
    metadata := [("a", wBadRec)], current_user := some "u", root_dir := "/root",
    user_dir := "/root/u", metadata_file := "/root/u/metadata.json" }

/-- Counterexample to claim C9: a state reachable by a single `set_user`
over an arbitrary on-disk metadata document whose in-memory mapping binds
the key `"a"` to a record whose `filename` is `"b"`: over arbitrary
documents the key/filename invariant does not hold in every reachable
state, because `_load_metadata` keeps the document's key even when the
record's own `filename` field disagrees. -/
theorem metadata_key_invariant_cex :
    Reachable (fun _ => True) wBadReached ∧ ¬ invMeta wBadReached.metadata := by
  constructor
  · exact Reachable.set_user_ok wBadStart wEnv "u" wBadReached
      (Reachable.start [] [("/root/u/metadata.json", MetaFileState.doc [("a", wBadDict)])]
        "/root" trivial)
      (by decide)
  · intro h
    exact absurd (h ("a", wBadRec) (List.mem_singleton_self _)) (by decide)

/-- Claim C9 as amended: restricted to runs whose on-disk metadata
documents are well keyed — every record that parses has a `filename`
equal to its key, which is exactly what `_save_metadata` itself writes —
every reachable state's in-memory mapping satisfies the invariant that
each key equals the `filename` of the record stored under it; a single
load of an arbitrary (mis-keyed) document can break it. -/
theorem metadata_key_invariant_amended (s : ManagerState)
    (h : Reachable DocsOK s) : invMeta s.metadata :=
  (reachable_docsOK_invMeta h).2

/-- Witness for the amended C9: a concrete two-step run (fresh manager
over an empty disk, then `set_user`). -/
theorem metadata_key_invariant_amended_witness :
    invMeta (ManagerState.metadata
      { fs := [], metaDocs := [], metadata := [], current_user := some "u",
        root_dir := "/root", user_dir := "/root/u",
        metadata_file := "/root/u/metadata.json" }) :=
  metadata_key_invariant_amended _
    (Reachable.set_user_ok
      { fs := [], metaDocs := [], metadata := [], current_user := none,
        root_dir := "/root", user_dir := "", metadata_file := "" }
      wEnv "u" _
      (Reachable.start [] [] "/root" (fun kv hkv => absurd hkv (List.not_mem_nil kv)))
      (by decide))
